import Mathlib

/-!
Verification of the pong network tool: the subnet address generator, the
multi-port liveness prober, the scan coordinator, the result presenter and
the continuous TCP probe loop, embedded shallowly from the Go sources
(cmd/local.go and the out command).
-/

namespace Pong

/-- An IPv4 address as four byte values, the embedding of Go's 4-byte `net.IP`. -/
structure IPv4 where
  a : Nat
  b : Nat
  c : Nat
  d : Nat
deriving DecidableEq, Repr

/-- `ipToUint32` packs the four bytes exactly as
`uint32(ip[0])<<24 | uint32(ip[1])<<16 | uint32(ip[2])<<8 | uint32(ip[3])` does;
byte values are below 256, so the `uint32` arithmetic never wraps. -/
def ipToUint32 (ip : IPv4) : Nat :=
  ip.a <<< 24 ||| ip.b <<< 16 ||| ip.c <<< 8 ||| ip.d

/-- One decimal digit character. -/
def digitChr (d : Nat) : Char := Char.ofNat (48 + d)

/-- Fuel-driven decimal printer, most significant digit first; the fuel is
always at least the digit count, so the result is the usual base-10 text. -/
def decChars : Nat → Nat → List Char
  | 0, _ => []
  | fuel + 1, n => if n < 10 then [digitChr n] else decChars fuel (n / 10) ++ [digitChr (n % 10)]

/-- Decimal representation of a natural number, as the `%d` verb prints it. -/
def natChars (n : Nat) : List Char := decChars (n + 1) n

/-- `uint32ToIP` renders `n>>24`, `(n>>16)&0xFF`, `(n>>8)&0xFF` and `n&0xFF` as a
dotted quad, the embedding of `fmt.Sprintf("%d.%d.%d.%d", ...)` applied to a
`uint32` argument (so the intended domain is `n < 2^32`). -/
def uint32ToIP (n : Nat) : String :=
  String.mk (natChars (n >>> 24) ++ ('.' :: (natChars ((n >>> 16) &&& 255) ++
    ('.' :: (natChars ((n >>> 8) &&& 255) ++ ('.' :: natChars (n &&& 255)))))))

/-- Split a leading run of decimal digit characters from the input. -/
def digitRun : List Char → List Char × List Char
  | [] => ([], [])
  | c :: cs =>
    if c.isDigit then
      let p := digitRun cs
      (c :: p.1, p.2)
    else ([], c :: cs)

/-- Numeric value of a digit string, most significant digit first. -/
def charsVal (ds : List Char) : Nat := ds.foldl (fun acc c => acc * 10 + (c.toNat - 48)) 0

/-- One dotted-quad field as `net.ParseIP` reads it: at least one digit, value at
most 255, no leading zero. Returns the value and the remaining input. -/
def parseField (s : List Char) : Option (Nat × List Char) :=
  let ds := (digitRun s).1
  if ds = [] then none
  else if ds.head? = some '0' ∧ ds.length ≠ 1 then none
  else if 255 < charsVal ds then none
  else some (charsVal ds, (digitRun s).2)

/-- The IPv4 path of `net.ParseIP`: exactly four dot-separated fields and no
trailing input. -/
def parseIPv4Chars (s : List Char) : Option IPv4 :=
  match parseField s with
  | some (a, '.' :: r1) =>
    match parseField r1 with
    | some (b, '.' :: r2) =>
      match parseField r2 with
      | some (c, '.' :: r3) =>
        match parseField r3 with
        | some (d, []) => some (IPv4.mk a b c d)
        | _ => none
      | _ => none
    | _ => none
  | _ => none

/-- `net.ParseIP` on a Lean string. -/
def parseIPv4 (s : String) : Option IPv4 := parseIPv4Chars s.data

/-- The sort key `displayResults` computes: `ipToUint32(net.ParseIP(hosts[i].IP))`.
The Go code would crash on an unparsable string; the scan only ever feeds it
dotted quads, and the embedding defaults to 0 off that domain. -/
def ipSortKey (s : String) : Nat := (parseIPv4 s).elim 0 ipToUint32

/-- Embedding of `generateIPRange`. `ones` is the mask prefix length
(`mask.Size()` with 32 total bits) and `ip` the masked network address handed
over by `getLocalNetwork`. Mirrors the /24 substitution for tiny subnets, the
/16 clamp, the (unreachable) `numHosts <= 0` fallback, and the enumeration of
`start+1 .. start+numHosts` in `uint32` arithmetic. -/
def generateIPRange (ip : IPv4) (ones : Nat) : List String :=
  let hostBits := 32 - ones
  let ip2 := if hostBits < 4 then IPv4.mk ip.a ip.b ip.c 0 else ip
  let hb1 := if hostBits < 4 then 8 else hostBits
  let hb2 := if hb1 > 16 then 16 else hb1
  let n0 := 2 ^ hb2 - 2
  let numHosts := if n0 ≤ 0 then 254 else n0
  let start := ipToUint32 ip2
  (List.range numHosts).map (fun i => uint32ToIP ((start + (i + 1)) % 2 ^ 32))

/-- A discovered network host, as in cmd/local.go. -/
structure Host where
  IP : String
  Hostname : String
  Status : String
deriving DecidableEq, Repr

/-- The comparison `displayResults` hands to `sort.Slice`, as the induced
non-strict order on the numeric keys. -/
def hostLE (h1 h2 : Host) : Prop := ipSortKey h1.IP ≤ ipSortKey h2.IP

instance : DecidableRel hostLE := fun _ _ => Nat.decLe _ _

instance : IsTotal Host hostLE := ⟨fun _ _ => Nat.le_total _ _⟩

instance : IsTrans Host hostLE := ⟨fun _ _ _ => Nat.le_trans⟩

/-- The sorting step of `displayResults`: `sort.Slice` with the key comparison
`ipToUint32(ParseIP(hosts[i].IP)) < ipToUint32(ParseIP(hosts[j].IP))`. Any
comparison sort meets the same ordering specification; the embedding uses
insertion sort. -/
def displaySorted (hosts : List Host) : List Host := hosts.insertionSort hostLE

/-- The fixed candidate port set probed by `isHostAlive`. -/
def ports : List String := ["80", "443", "22", "445", "139", "21", "23", "25", "53", "8080"]

/-- Outcome of one raw TCP dial: `none` for a successful connect, `some msg`
for the error text, plus the time (same unit as the timeout) at which the dial
would resolve absent any deadline. -/
structure DialAttempt where
  rawErr : Option String
  time : Nat

/-- Does `pat` occur at the start of `s`? -/
def leadsWith : List Char → List Char → Bool
  | [], _ => true
  | _ :: _, [] => false
  | p :: ps, c :: cs => p == c && leadsWith ps cs

/-- `strings.Contains`: does `pat` occur anywhere inside `s`? -/
def containsSeq (pat : List Char) : List Char → Bool
  | [] => pat.isEmpty
  | c :: cs => leadsWith pat (c :: cs) || containsSeq pat cs

/-- The dial error a probe goroutine sees under the shared context deadline: a
dial that has not resolved before the timeout fails with the context error. -/
def effErr (timeout : Nat) (att : DialAttempt) : Option String :=
  if att.time < timeout then att.rawErr else some "context deadline exceeded"

/-- The boolean each port goroutine sends: a successful connect, or an error
whose text contains "refused", counts as a conclusive positive. -/
def probeSend : Option String → Bool
  | none => true
  | some msg => containsSeq "refused".data msg.data

/-- The collection loop of `isHostAlive`: read one result per port, return on
the first `true`, and fall through to `false` once every port has reported. -/
def collectResults : List Bool → Bool
  | [] => false
  | r :: rest => if r then true else collectResults rest

/-- Embedding of `isHostAlive`: `dial` gives each port's raw outcome. The
decision only depends on which booleans are sent, not on their arrival order,
so the embedding keeps port order. -/
def isHostAlive (dial : String → DialAttempt) (timeout : Nat) : Bool :=
  collectResults (ports.map (fun p => probeSend (effErr timeout (dial p))))

/-- Embedding of `scanNetwork`'s worker pool: every queued address is consumed
exactly once, and an alive address contributes exactly one appended record.
Returns the attempted addresses and the collected records; concurrency only
permutes the append order, which is left unconstrained by the code, so the
embedding fixes queue order. -/
def scanNetwork (alive : String → Bool) (resolve : String → String) :
    List String → List String × List Host
  | [] => ([], [])
  | ip :: rest =>
    let p := scanNetwork alive resolve rest
    (ip :: p.1, if alive ip then Host.mk ip (resolve ip) "Online" :: p.2 else p.2)

/-- Result of a single TCP ping attempt; durations are in nanoseconds. -/
structure PingResult where
  success : Bool
  duration : Nat
deriving DecidableEq, Repr

/-- Statistics of the ping session, as mutated by `RunOut`. -/
structure PingStats where
  sent : Nat
  received : Nat
  lost : Nat
  minTime : Nat
  maxTime : Nat
  totalTime : Nat
  startTime : Nat
deriving DecidableEq, Repr

/-- The statistics mutation of one loop iteration of `RunOut`: `Sent++`, then on
success `Received++`, `TotalTime += d` and the min/max updates, on failure
`Lost++`. -/
def updateStats (stats : PingStats) (r : PingResult) : PingStats :=
  let s1 : PingStats := { stats with sent := stats.sent + 1 }
  if r.success then
    let s2 : PingStats :=
      { s1 with received := s1.received + 1, totalTime := s1.totalTime + r.duration }
    let s3 : PingStats := if r.duration < s2.minTime then { s2 with minTime := r.duration } else s2
    if r.duration > s3.maxTime then { s3 with maxTime := r.duration } else s3
  else { s1 with lost := s1.lost + 1 }

/-- One iteration's environment for the probe loop: whether a cancellation
signal is pending at the top-of-loop check, the probe outcome, and whether a
signal arrives during the inter-probe wait before the interval timer fires. -/
structure LoopEnv where
  sigBefore : Bool
  result : PingResult
  sigDuringWait : Bool
deriving DecidableEq, Repr

/-- Embedding of the `for !done` loop of `RunOut`. The environment list feeds
one entry per iteration; an exhausted list models an unbounded run observed up
to that point. Returns the final statistics together with the statistics
snapshot after each completed iteration. -/
def runOut (count : Nat) : List LoopEnv → Nat → PingStats → PingStats × List PingStats
  | [], _, stats => (stats, [])
  | e :: rest, seq, stats =>
    if e.sigBefore then (stats, [])
    else
      let seq1 := seq + 1
      let stats1 := updateStats stats e.result
      if 0 < count ∧ count ≤ seq1 then (stats1, [stats1])
      else if e.sigDuringWait then (stats1, [stats1])
      else
        let p := runOut count rest seq1 stats1
        (p.1, stats1 :: p.2)

/-- What `printStats` shows: packet counts, loss percentage, elapsed wall time
in milliseconds, and the optional rtt min/avg/max line. -/
structure StatsReport where
  sent : Nat
  received : Nat
  lossPercent : ℚ
  elapsedMs : Nat
  rtt : Option (Nat × Nat × Nat)
deriving DecidableEq, Repr

/-- Embedding of `printStats`; `now` is the wall clock at the call, durations
are nanoseconds and `elapsed.Milliseconds()` divides by 10^6. Go computes the
loss percentage in float64; the embedding states the same formula over ℚ. -/
def printStats (now : Nat) (stats : PingStats) : StatsReport :=
  { sent := stats.sent
    received := stats.received
    lossPercent := if 0 < stats.sent then (stats.lost : ℚ) / (stats.sent : ℚ) * 100 else 0
    elapsedMs := (now - stats.startTime) / 1000000
    rtt := if 0 < stats.received then
        some (stats.minTime, stats.totalTime / stats.received, stats.maxTime)
      else none }

/-! ### Decimal formatting and parsing lemmas -/

theorem digitChr_isDigit : ∀ d < 10, (digitChr d).isDigit = true := by decide

theorem digitChr_toNat : ∀ d < 10, (digitChr d).toNat = 48 + d := by decide

theorem digitChr_ne_zero : ∀ d, 1 ≤ d → d < 10 → digitChr d ≠ '0' := by decide

theorem charsVal_append (xs : List Char) (c : Char) :
    charsVal (xs ++ [c]) = charsVal xs * 10 + (c.toNat - 48) := by
  simp [charsVal, List.foldl_append]

theorem decChars_digits :
    ∀ fuel n, n < fuel → ∀ c ∈ decChars fuel n, c.isDigit = true := by
  intro fuel
  induction fuel with
  | zero => intro n h; exact absurd h (Nat.not_lt_zero n)
  | succ f ih =>
    intro n h c hc
    simp only [decChars] at hc
    by_cases h10 : n < 10
    · rw [if_pos h10] at hc
      simp only [List.mem_singleton] at hc
      subst hc
      exact digitChr_isDigit n h10
    · rw [if_neg h10] at hc
      rcases List.mem_append.mp hc with hl | hr
      · exact ih (n / 10) (by omega) c hl
      · simp only [List.mem_singleton] at hr
        subst hr
        exact digitChr_isDigit (n % 10) (by omega)

theorem decChars_ne_nil : ∀ fuel n, n < fuel → decChars fuel n ≠ [] := by
  intro fuel
  induction fuel with
  | zero => intro n h; exact absurd h (Nat.not_lt_zero n)
  | succ f _ =>
    intro n _
    simp only [decChars]
    by_cases h10 : n < 10
    · rw [if_pos h10]; simp
    · rw [if_neg h10]; simp

theorem decChars_val : ∀ fuel n, n < fuel → charsVal (decChars fuel n) = n := by
  intro fuel
  induction fuel with
  | zero => intro n h; exact absurd h (Nat.not_lt_zero n)
  | succ f ih =>
    intro n h
    simp only [decChars]
    by_cases h10 : n < 10
    · rw [if_pos h10]
      show charsVal ([] ++ [digitChr n]) = n
      rw [charsVal_append, digitChr_toNat n h10]
      simp [charsVal]
    · rw [if_neg h10]
      rw [charsVal_append, ih (n / 10) (by omega), digitChr_toNat (n % 10) (by omega)]
      omega

theorem decChars_head :
    ∀ fuel n, n < fuel → 1 ≤ n → (decChars fuel n).head? ≠ some '0' := by
  intro fuel
  induction fuel with
  | zero => intro n h; exact absurd h (Nat.not_lt_zero n)
  | succ f ih =>
    intro n h h1
    simp only [decChars]
    by_cases h10 : n < 10
    · rw [if_pos h10]
      simp only [List.head?_cons]
      intro hq
      exact digitChr_ne_zero n h1 h10 (Option.some.inj hq)
    · rw [if_neg h10]
      rcases hne : decChars f (n / 10) with _ | ⟨x, xs⟩
      · exact absurd hne (decChars_ne_nil f (n / 10) (by omega))
      · have := ih (n / 10) (by omega) (by omega)
        rw [hne] at this
        simpa using this

theorem natChars_digits (n : Nat) : ∀ c ∈ natChars n, c.isDigit = true :=
  decChars_digits (n + 1) n (Nat.lt_succ_self n)

theorem natChars_ne_nil (n : Nat) : natChars n ≠ [] :=
  decChars_ne_nil (n + 1) n (Nat.lt_succ_self n)

theorem natChars_val (n : Nat) : charsVal (natChars n) = n :=
  decChars_val (n + 1) n (Nat.lt_succ_self n)

theorem natChars_head (n : Nat) (h : 1 ≤ n) : (natChars n).head? ≠ some '0' :=
  decChars_head (n + 1) n (Nat.lt_succ_self n) h

theorem natChars_zero : natChars 0 = ['0'] := by decide

theorem digitRun_append (ds rest : List Char) (hds : ∀ c ∈ ds, c.isDigit = true)
    (hrest : ∀ c, rest.head? = some c → c.isDigit = false) :
    digitRun (ds ++ rest) = (ds, rest) := by
  induction ds with
  | nil =>
    cases rest with
    | nil => rfl
    | cons c cs =>
      have := hrest c rfl
      simp [digitRun, this]
  | cons c cs ih =>
    have hc := hds c (List.mem_cons_self c cs)
    have := ih (fun x hx => hds x (List.mem_cons_of_mem c hx))
    simp [digitRun, hc, this]

theorem parseField_natChars (n : Nat) (hn : n ≤ 255) (rest : List Char)
    (hrest : ∀ c, rest.head? = some c → c.isDigit = false) :
    parseField (natChars n ++ rest) = some (n, rest) := by
  have hdr := digitRun_append (natChars n) rest (natChars_digits n) hrest
  have hcond : ¬((natChars n).head? = some '0' ∧ (natChars n).length ≠ 1) := by
    rcases Nat.eq_zero_or_pos n with h0 | h1
    · subst h0
      rw [natChars_zero]
      simp
    · intro hx
      exact natChars_head n h1 hx.1
  simp only [parseField, hdr]
  rw [if_neg (natChars_ne_nil n), if_neg hcond, if_neg (by rw [natChars_val]; omega)]
  rw [natChars_val]

theorem dot_head_not_digit (r : List Char) :
    ∀ c, (('.' :: r).head?) = some c → c.isDigit = false := by
  intro c h
  simp only [List.head?_cons, Option.some.injEq] at h
  subst h
  decide

theorem nil_head_not_digit :
    ∀ c : Char, (([] : List Char).head?) = some c → c.isDigit = false := by
  simp

theorem parseIPv4Chars_quad (a b c d : Nat)
    (ha : a ≤ 255) (hb : b ≤ 255) (hc : c ≤ 255) (hd : d ≤ 255) :
    parseIPv4Chars (natChars a ++ ('.' :: (natChars b ++ ('.' :: (natChars c ++
      ('.' :: natChars d)))))) = some (IPv4.mk a b c d) := by
  have h1 := parseField_natChars a ha
    ('.' :: (natChars b ++ ('.' :: (natChars c ++ ('.' :: natChars d))))) (dot_head_not_digit _)
  have h2 := parseField_natChars b hb
    ('.' :: (natChars c ++ ('.' :: natChars d))) (dot_head_not_digit _)
  have h3 := parseField_natChars c hc ('.' :: natChars d) (dot_head_not_digit _)
  have h4 : parseField (natChars d) = some (d, []) := by
    have := parseField_natChars d hd [] nil_head_not_digit
    rwa [List.append_nil] at this
  simp [parseIPv4Chars, h1, h2, h3, h4]

/-! ### Packing and round-trip lemmas -/

theorem ipToUint32_eq (a b c d : Nat)
    (ha : a < 256) (hb : b < 256) (hc : c < 256) (hd : d < 256) :
    ipToUint32 (IPv4.mk a b c d) = 2 ^ 24 * a + 2 ^ 16 * b + 2 ^ 8 * c + d := by
  show a <<< 24 ||| b <<< 16 ||| c <<< 8 ||| d = _
  rw [Nat.shiftLeft_eq, Nat.shiftLeft_eq, Nat.shiftLeft_eq]
  rw [Nat.mul_comm a, Nat.mul_comm b, Nat.mul_comm c]
  rw [← Nat.mul_add_lt_is_or (b := 2 ^ 16 * b) (by omega) a]
  have e1 : 2 ^ 24 * a + 2 ^ 16 * b = 2 ^ 16 * (2 ^ 8 * a + b) := by ring
  rw [e1, ← Nat.mul_add_lt_is_or (b := 2 ^ 8 * c) (by omega) _]
  have e2 : 2 ^ 16 * (2 ^ 8 * a + b) + 2 ^ 8 * c = 2 ^ 8 * (2 ^ 16 * a + 2 ^ 8 * b + c) := by
    ring
  rw [e2, ← Nat.mul_add_lt_is_or (b := d) (by omega) _]
  try ring

theorem ipToUint32_lt (ip : IPv4) (ha : ip.a < 256) (hb : ip.b < 256)
    (hc : ip.c < 256) (hd : ip.d < 256) : ipToUint32 ip < 2 ^ 32 := by
  cases ip with
  | mk a b c d =>
    rw [ipToUint32_eq a b c d ha hb hc hd]
    simp only at ha hb hc hd ⊢
    omega

theorem and255_eq_mod (x : Nat) : x &&& 255 = x % 2 ^ 8 := by
  have h : (255 : Nat) = 2 ^ 8 - 1 := by norm_num
  rw [h, Nat.and_pow_two_sub_one_eq_mod]

theorem ipSortKey_uint32ToIP (n : Nat) (h : n < 2 ^ 32) : ipSortKey (uint32ToIP n) = n := by
  have e24 : n >>> 24 = n / 2 ^ 24 := Nat.shiftRight_eq_div_pow n 24
  have e16 : n >>> 16 = n / 2 ^ 16 := Nat.shiftRight_eq_div_pow n 16
  have e8 : n >>> 8 = n / 2 ^ 8 := Nat.shiftRight_eq_div_pow n 8
  have hA : n >>> 24 ≤ 255 := by rw [e24]; omega
  have hB : (n >>> 16) &&& 255 ≤ 255 := by rw [and255_eq_mod]; omega
  have hC : (n >>> 8) &&& 255 ≤ 255 := by rw [and255_eq_mod]; omega
  have hD : n &&& 255 ≤ 255 := by rw [and255_eq_mod]; omega
  have hp : parseIPv4 (uint32ToIP n) =
      some (IPv4.mk (n >>> 24) ((n >>> 16) &&& 255) ((n >>> 8) &&& 255) (n &&& 255)) := by
    show parseIPv4Chars _ = _
    exact parseIPv4Chars_quad _ _ _ _ hA hB hC hD
  rw [ipSortKey, hp]
  show ipToUint32 _ = n
  rw [ipToUint32_eq _ _ _ _ (by omega) (by omega) (by omega) (by omega)]
  rw [e24, e16, e8, and255_eq_mod, and255_eq_mod, and255_eq_mod]
  omega

theorem uint32ToIP_injOn (m n : Nat) (hm : m < 2 ^ 32) (hn : n < 2 ^ 32)
    (h : uint32ToIP m = uint32ToIP n) : m = n := by
  have := congrArg ipSortKey h
  rwa [ipSortKey_uint32ToIP m hm, ipSortKey_uint32ToIP n hn] at this

/-! ### Address range generator lemmas -/

theorem generateIPRange_mid (ip : IPv4) (ones : Nat) (h16 : 16 ≤ ones) (h28 : ones ≤ 28) :
    generateIPRange ip ones =
      (List.range (2 ^ (32 - ones) - 2)).map
        (fun i => uint32ToIP ((ipToUint32 ip + (i + 1)) % 2 ^ 32)) := by
  have h4 : ¬(32 - ones < 4) := by omega
  have hgt : ¬(32 - ones > 16) := by omega
  have hpow : 16 ≤ 2 ^ (32 - ones) := by
    calc (16 : Nat) = 2 ^ 4 := by norm_num
    _ ≤ 2 ^ (32 - ones) := Nat.pow_le_pow_right (by norm_num) (by omega)
  have hn0 : ¬(2 ^ (32 - ones) - 2 ≤ 0) := by omega
  simp only [generateIPRange, if_neg h4, if_neg hgt, if_neg hn0]

theorem generateIPRange_large (ip : IPv4) (ones : Nat) (h : ones < 16) :
    (generateIPRange ip ones).length = 65534 := by
  have h4 : ¬(32 - ones < 4) := by omega
  have hgt : 32 - ones > 16 := by omega
  simp only [generateIPRange, if_neg h4, if_pos hgt]
  norm_num

/-- A network address aligned on its own host-bit boundary stays below `2^32`
even at the end of the generated range. -/
theorem aligned_range_bound (start h : Nat) (hh : h ≤ 32) (hlt : start < 2 ^ 32)
    (hal : start % 2 ^ h = 0) : start + 2 ^ h ≤ 2 ^ 32 := by
  obtain ⟨k, hk⟩ := Nat.dvd_iff_mod_eq_zero.mpr hal
  have hdvd : (2 : Nat) ^ h ∣ 2 ^ 32 := pow_dvd_pow 2 hh
  obtain ⟨m, hm⟩ := hdvd
  have hpos : 0 < 2 ^ h := Nat.pos_pow_of_pos h (by norm_num)
  have hkm : k < m := by
    by_contra hge
    have : 2 ^ h * m ≤ 2 ^ h * k := Nat.mul_le_mul_left _ (by omega)
    omega
  have : 2 ^ h * (k + 1) ≤ 2 ^ h * m := Nat.mul_le_mul_left _ (by omega)
  have hexp : 2 ^ h * (k + 1) = 2 ^ h * k + 2 ^ h := by ring
  calc start + 2 ^ h = 2 ^ h * (k + 1) := by omega
  _ ≤ 2 ^ h * m := this
  _ = 2 ^ 32 := hm.symm

/-- C2 helper: every numeric value enumerated by the generator in the
mid-range regime stays below `2^32`, so the `uint32` addition never wraps. -/
theorem mid_no_wrap (ip : IPv4) (ones i : Nat)
    (ha : ip.a < 256) (hb : ip.b < 256) (hc : ip.c < 256) (hd : ip.d < 256)
    (h16 : 16 ≤ ones) (h28 : ones ≤ 28)
    (hal : ipToUint32 ip % 2 ^ (32 - ones) = 0)
    (hi : i + 1 ≤ 2 ^ (32 - ones) - 1) :
    ipToUint32 ip + (i + 1) < 2 ^ 32 := by
  have hlt := ipToUint32_lt ip ha hb hc hd
  have hb32 := aligned_range_bound (ipToUint32 ip) (32 - ones) (by omega) hlt hal
  omega

/-- C2: for a masked IPv4 network whose prefix leaves hostBits = 32 − ones in
[4,16], `generateIPRange` returns exactly 2^hostBits − 2 addresses, namely
network+1 through network+(2^hostBits−2) in ascending numeric order, and the
network and broadcast addresses never appear; for a /24 mask this instantiates
to 254 addresses from network+1 to network+254. -/
theorem c2_generateIPRange_enumeration (ip : IPv4) (ones : Nat)
    (ha : ip.a < 256) (hb : ip.b < 256) (hc : ip.c < 256) (hd : ip.d < 256)
    (h16 : 16 ≤ ones) (h28 : ones ≤ 28)
    (hal : ipToUint32 ip % 2 ^ (32 - ones) = 0) :
    (generateIPRange ip ones).length = 2 ^ (32 - ones) - 2 ∧
    (∀ i, i < 2 ^ (32 - ones) - 2 →
      (generateIPRange ip ones)[i]? = some (uint32ToIP (ipToUint32 ip + (i + 1)))) ∧
    List.Pairwise (fun s t => ipSortKey s < ipSortKey t) (generateIPRange ip ones) ∧
    uint32ToIP (ipToUint32 ip) ∉ generateIPRange ip ones ∧
    uint32ToIP (ipToUint32 ip + (2 ^ (32 - ones) - 1)) ∉ generateIPRange ip ones := by
  have hnf := generateIPRange_mid ip ones h16 h28
  have hpow : 16 ≤ 2 ^ (32 - ones) := by
    calc (16 : Nat) = 2 ^ 4 := by norm_num
    _ ≤ 2 ^ (32 - ones) := Nat.pow_le_pow_right (by norm_num) (by omega)
  have hwrap : ∀ i, i < 2 ^ (32 - ones) - 2 → ipToUint32 ip + (i + 1) < 2 ^ 32 := by
    intro i hi
    exact mid_no_wrap ip ones i ha hb hc hd h16 h28 hal (by omega)
  have hlt32 := ipToUint32_lt ip ha hb hc hd
  have hbound := aligned_range_bound (ipToUint32 ip) (32 - ones) (by omega) hlt32 hal
  refine ⟨?_, ?_, ?_, ?_, ?_⟩
  · rw [hnf]
    simp
  · intro i hi
    rw [hnf, List.getElem?_map, List.getElem?_range hi]
    simp only [Option.map_some']
    rw [Nat.mod_eq_of_lt (hwrap i hi)]
  · rw [hnf]
    refine List.pairwise_map.mpr (List.pairwise_iff_getElem.mpr ?_)
    intro i j hi hj hij
    simp only [List.length_range] at hi hj
    simp only [List.getElem_range]
    rw [Nat.mod_eq_of_lt (hwrap i (by omega)), Nat.mod_eq_of_lt (hwrap j hj)]
    rw [ipSortKey_uint32ToIP _ (hwrap i (by omega)), ipSortKey_uint32ToIP _ (hwrap j hj)]
    omega
  · intro hmem
    rw [hnf] at hmem
    obtain ⟨i, hi, heq⟩ := List.mem_map.mp hmem
    have hiN : i < 2 ^ (32 - ones) - 2 := List.mem_range.mp hi
    rw [Nat.mod_eq_of_lt (hwrap i hiN)] at heq
    have := uint32ToIP_injOn _ _ (hwrap i hiN) hlt32 heq
    omega
  · intro hmem
    rw [hnf] at hmem
    obtain ⟨i, hi, heq⟩ := List.mem_map.mp hmem
    have hiN : i < 2 ^ (32 - ones) - 2 := List.mem_range.mp hi
    rw [Nat.mod_eq_of_lt (hwrap i hiN)] at heq
    have := uint32ToIP_injOn _ _ (hwrap i hiN) (by omega) heq
    omega

/-- Witness for C2 at the /24 scenario: the range generated for the network
192.168.1.0/24 has exactly 2^8 − 2 = 254 addresses. -/
theorem c2_generateIPRange_enumeration_witness :
    (generateIPRange (IPv4.mk 192 168 1 0) 24).length = 2 ^ (32 - 24) - 2 :=
  (c2_generateIPRange_enumeration (IPv4.mk 192 168 1 0) 24 (by decide) (by decide)
    (by decide) (by decide) (by decide) (by decide) (by decide)).1

set_option maxRecDepth 8000 in
/-- C8 counterexample: the claim reads the substituted range as a 24-host-bit
range, which would enumerate 2^24 − 2 candidates; on the degenerate /32 input
10.0.0.1 the generator actually produces 254 addresses. -/
theorem c8_counterexample :
    (generateIPRange (IPv4.mk 10 0 0 1) 32).length = 254 ∧ (254 : Nat) ≠ 2 ^ 24 - 2 := by
  constructor
  · rfl
  · decide

/-- C8 (amended): if the local prefix leaves hostBits < 4, the generator
substitutes an 8-host-bit (/24) range anchored at the enclosing /24 network
boundary of the local address, instead of enumerating the original
near-empty range. -/
theorem c8_small_subnet_substitution (ip : IPv4) (ones : Nat)
    (h28 : 28 < ones) (h32 : ones ≤ 32) :
    generateIPRange ip ones = generateIPRange (IPv4.mk ip.a ip.b ip.c 0) 24 := by
  have h4 : 32 - ones < 4 := by omega
  have h4' : ¬(32 - 24 < 4) := by omega
  simp only [generateIPRange, if_pos h4, if_neg h4']

/-- Witness for C8 (amended) at the /32 input 10.0.0.1: the generated range
equals the /24 range anchored at 10.0.0.0. -/
theorem c8_small_subnet_substitution_witness :
    generateIPRange (IPv4.mk 10 0 0 1) 32 = generateIPRange (IPv4.mk 10 0 0 0) 24 :=
  c8_small_subnet_substitution (IPv4.mk 10 0 0 1) 32 (by decide) (by decide)

set_option maxRecDepth 8000 in
/-- C9 counterexample: a /28 mask leaves hostBits = 4, and the generator then
produces only 2^4 − 2 = 14 addresses, fewer than the claimed lower bound
of 254. -/
theorem c9_counterexample :
    (generateIPRange (IPv4.mk 192 168 1 16) 28).length = 14 ∧ 14 < 254 := by
  constructor
  · rfl
  · decide

/-- C9 (amended): every sequence the generator produces from an IPv4 input has
between 14 and 65534 entries; for hostBits > 16 the generator clamps hostBits
to 16 so the count is capped at 2^16 − 2 = 65534, and no input yields fewer
than 2^4 − 2 = 14 entries. -/
theorem c9_generateIPRange_size_bounds (ip : IPv4) (ones : Nat) (h32 : ones ≤ 32) :
    14 ≤ (generateIPRange ip ones).length ∧
    (generateIPRange ip ones).length ≤ 65534 ∧
    (16 < 32 - ones → (generateIPRange ip ones).length = 65534) := by
  by_cases hA : 28 < ones
  · rw [c8_small_subnet_substitution ip ones hA h32]
    rw [generateIPRange_mid _ 24 (by norm_num) (by norm_num)]
    simp only [List.length_map, List.length_range]
    norm_num
    omega
  · by_cases hB : ones < 16
    · rw [generateIPRange_large ip ones hB]
      omega
    · rw [generateIPRange_mid ip ones (by omega) (by omega)]
      simp only [List.length_map, List.length_range]
      have hlo : 2 ^ 4 ≤ 2 ^ (32 - ones) := Nat.pow_le_pow_right (by norm_num) (by omega)
      have hhi : 2 ^ (32 - ones) ≤ 2 ^ 16 := Nat.pow_le_pow_right (by norm_num) (by omega)
      norm_num at hlo hhi ⊢
      omega

/-- Witness for C9 (amended) at a /8 network: hostBits = 24 > 16, and the
generated count is exactly 65534. -/
theorem c9_generateIPRange_size_bounds_witness :
    (generateIPRange (IPv4.mk 10 0 0 0) 8).length = 65534 :=
  (c9_generateIPRange_size_bounds (IPv4.mk 10 0 0 0) 8 (by decide)).2.2 (by decide)

/-! ### Liveness prober lemmas -/

theorem leadsWith_iff (pat s : List Char) :
    leadsWith pat s = true ↔ ∃ rest, s = pat ++ rest := by
  induction pat generalizing s with
  | nil =>
    simp only [leadsWith, List.nil_append]
    exact ⟨fun _ => ⟨s, rfl⟩, fun _ => trivial⟩
  | cons p ps ih =>
    cases s with
    | nil =>
      simp only [leadsWith]
      constructor
      · intro h; exact absurd h (by simp)
      · rintro ⟨rest, hr⟩; exact absurd hr (by simp)
    | cons c cs =>
      simp only [leadsWith, Bool.and_eq_true, beq_iff_eq, ih]
      constructor
      · rintro ⟨hpc, rest, hrest⟩
        subst hpc
        subst hrest
        exact ⟨rest, rfl⟩
      · rintro ⟨rest, hr⟩
        rw [List.cons_append] at hr
        obtain ⟨h1, h2⟩ := List.cons.inj hr
        exact ⟨h1.symm, rest, h2⟩

theorem containsSeq_iff (pat s : List Char) :
    containsSeq pat s = true ↔ ∃ l r, s = l ++ (pat ++ r) := by
  induction s with
  | nil =>
    simp only [containsSeq, List.isEmpty_iff]
    constructor
    · intro h; exact ⟨[], [], by simp [h]⟩
    · rintro ⟨l, r, h⟩
      have := List.append_eq_nil.mp h.symm
      exact (List.append_eq_nil.mp this.2).1
  | cons c cs ih =>
    simp only [containsSeq, Bool.or_eq_true, leadsWith_iff, ih]
    constructor
    · rintro (⟨rest, hr⟩ | ⟨l, r, hr⟩)
      · exact ⟨[], rest, by simp [hr]⟩
      · exact ⟨c :: l, r, by simp [hr]⟩
    · rintro ⟨l, r, hr⟩
      cases l with
      | nil => exact Or.inl ⟨r, by simpa using hr⟩
      | cons x xs =>
        rw [List.cons_append] at hr
        obtain ⟨_, h2⟩ := List.cons.inj hr
        exact Or.inr ⟨xs, r, h2⟩

theorem collectResults_iff (l : List Bool) :
    collectResults l = true ↔ ∃ x ∈ l, x = true := by
  induction l with
  | nil => simp [collectResults]
  | cons r rest ih =>
    cases r with
    | false => simp [collectResults, ih]
    | true => simp [collectResults]

theorem probeSend_effErr_iff (timeout : Nat) (att : DialAttempt) :
    probeSend (effErr timeout att) = true ↔
      att.time < timeout ∧ (att.rawErr = none ∨
        ∃ msg l r, att.rawErr = some msg ∧ msg.data = l ++ ("refused".data ++ r)) := by
  unfold effErr
  by_cases ht : att.time < timeout
  · rw [if_pos ht]
    cases he : att.rawErr with
    | none => simp [probeSend, ht]
    | some msg =>
      simp only [probeSend, containsSeq_iff, ht, true_and]
      constructor
      · rintro ⟨l, r, h⟩
        exact Or.inr ⟨msg, l, r, rfl, h⟩
      · rintro (hno | ⟨msg2, l, r, hm, hdata⟩)
        · exact absurd hno (by simp)
        · obtain rfl := Option.some.inj hm
          exact ⟨l, r, hdata⟩
  · rw [if_neg ht]
    have hf : probeSend (some "context deadline exceeded") = false := by decide
    simp [hf, ht]

/-- C1: the liveness prober returns alive if and only if at least one of the 10
fixed port attempts resolves within the timeout with a successful connect or a
failure whose text contains "refused"; in particular one refused outcome among
nine attempts that exceed the timeout yields alive. -/
theorem c1_isHostAlive_decision :
    (∀ (dial : String → DialAttempt) (timeout : Nat),
      isHostAlive dial timeout = true ↔
        ∃ p ∈ ports, (dial p).time < timeout ∧ ((dial p).rawErr = none ∨
          ∃ msg l r, (dial p).rawErr = some msg ∧
            msg.data = l ++ ("refused".data ++ r))) ∧
    isHostAlive (fun p =>
      if p == "22" then DialAttempt.mk (some "connect: connection refused") 5
      else DialAttempt.mk (some "i/o timeout") 1000) 1000 = true := by
  constructor
  · intro dial timeout
    rw [isHostAlive, collectResults_iff]
    constructor
    · rintro ⟨x, hx, hxt⟩
      obtain ⟨p, hp, hpe⟩ := List.mem_map.mp hx
      have hps : probeSend (effErr timeout (dial p)) = true := by rw [hpe]; exact hxt
      exact ⟨p, hp, (probeSend_effErr_iff timeout (dial p)).mp hps⟩
    · rintro ⟨p, hp, hcond⟩
      refine ⟨probeSend (effErr timeout (dial p)), List.mem_map_of_mem _ hp, ?_⟩
      exact (probeSend_effErr_iff timeout (dial p)).mpr hcond
  · decide

/-! ### Result presenter lemmas -/

/-- C7: the presenter shows a permutation of the collected records ordered so
that the 32-bit numeric values of adjacent addresses are non-decreasing; in
particular 192.168.1.9 is displayed before 192.168.1.10, refuting any
lexicographic ordering. -/
theorem c7_displayResults_numeric_order :
    (∀ hosts : List Host,
      List.Perm (displaySorted hosts) hosts ∧
      List.Chain' (fun x y => ipSortKey x.IP ≤ ipSortKey y.IP) (displaySorted hosts)) ∧
    displaySorted [Host.mk "192.168.1.10" "-" "Online", Host.mk "192.168.1.9" "-" "Online"] =
      [Host.mk "192.168.1.9" "-" "Online", Host.mk "192.168.1.10" "-" "Online"] := by
  constructor
  · intro hosts
    constructor
    · exact List.perm_insertionSort hostLE hosts
    · have hs : List.Sorted hostLE (displaySorted hosts) :=
        List.sorted_insertionSort hostLE hosts
      exact List.Pairwise.chain' hs
  · decide

/-- C10: packing any 32-bit value into a dotted quad with `uint32ToIP`, parsing
it back with `net.ParseIP` and converting with `ipToUint32` — exactly the sort
key of `displayResults` — returns the original value. -/
theorem c10_sort_key_roundtrip (n : Nat) (h : n < 2 ^ 32) :
    ipSortKey (uint32ToIP n) = n :=
  ipSortKey_uint32ToIP n h

set_option maxRecDepth 8000 in
/-- Witness for C10 at n = 3232235786, the numeric value of 192.168.1.10. -/
theorem c10_sort_key_roundtrip_witness : ipSortKey (uint32ToIP 3232235786) = 3232235786 :=
  c10_sort_key_roundtrip 3232235786 (by norm_num)

/-! ### Scan coordinator lemmas -/

theorem scanNetwork_attempted (alive : String → Bool) (resolve : String → String) :
    ∀ ips : List String, (scanNetwork alive resolve ips).1 = ips := by
  intro ips
  induction ips with
  | nil => rfl
  | cons ip rest ih => simp [scanNetwork, ih]

theorem scanNetwork_record_shape (alive : String → Bool) (resolve : String → String) :
    ∀ ips : List String, ∀ h ∈ (scanNetwork alive resolve ips).2,
      h.Status = "Online" ∧ h.Hostname = resolve h.IP ∧ alive h.IP = true ∧ h.IP ∈ ips := by
  intro ips
  induction ips with
  | nil => simp [scanNetwork]
  | cons ip rest ih =>
    intro h hmem
    simp only [scanNetwork] at hmem
    by_cases hal : alive ip
    · rw [if_pos hal] at hmem
      rcases List.mem_cons.mp hmem with rfl | hmem2
      · exact ⟨rfl, rfl, hal, List.mem_cons_self ip rest⟩
      · obtain ⟨h1, h2, h3, h4⟩ := ih h hmem2
        exact ⟨h1, h2, h3, List.mem_cons_of_mem ip h4⟩
    · rw [if_neg hal] at hmem
      obtain ⟨h1, h2, h3, h4⟩ := ih h hmem
      exact ⟨h1, h2, h3, List.mem_cons_of_mem ip h4⟩

theorem scanNetwork_one_record (alive : String → Bool) (resolve : String → String) :
    ∀ ips : List String, ips.Nodup → ∀ ip,
      List.countP (fun h => h.IP == ip) (scanNetwork alive resolve ips).2 =
        if ip ∈ ips ∧ alive ip = true then 1 else 0 := by
  intro ips
  induction ips with
  | nil =>
    intro _ ip
    simp [scanNetwork]
  | cons q rest ih =>
    intro hnd ip
    obtain ⟨hqnot, hrest⟩ := List.nodup_cons.mp hnd
    have IH := ih hrest ip
    have hmem_of_ne : q ≠ ip → ((ip ∈ q :: rest) ↔ ip ∈ rest) := by
      intro hqip
      constructor
      · intro h
        rcases List.mem_cons.mp h with h1 | h2
        · exact absurd h1.symm hqip
        · exact h2
      · exact List.mem_cons_of_mem q
    simp only [scanNetwork]
    by_cases hal : alive q = true
    · rw [if_pos hal, List.countP_cons, IH]
      by_cases hqip : q = ip
      · subst hqip
        have h0 : ¬(q ∈ rest ∧ alive q = true) := fun hx => hqnot hx.1
        simp [h0, hal, hqnot]
      · have hbeq : ((Host.mk q (resolve q) "Online").IP == ip) = false := by
          simp [hqip]
        simp only [hbeq, Bool.false_eq_true, if_false, Nat.add_zero]
        simp only [hmem_of_ne hqip]
    · rw [if_neg hal, IH]
      by_cases hqip : q = ip
      · subst hqip
        have h1 : ¬(q ∈ rest ∧ alive q = true) := fun hx => hqnot hx.1
        have h2 : ¬(q ∈ q :: rest ∧ alive q = true) := fun hx => hal hx.2
        rw [if_neg h1, if_neg h2]
      · simp only [hmem_of_ne hqip]

/-- C4: the scan attempts every candidate address of its input sequence, and
returns exactly one Host record — status "Online", hostname from the resolver —
for each address the liveness prober reports alive, and no record for any
other address. -/
theorem c4_scanNetwork_complete (alive : String → Bool) (resolve : String → String)
    (ips : List String) (hnd : ips.Nodup) :
    (scanNetwork alive resolve ips).1 = ips ∧
    (∀ h ∈ (scanNetwork alive resolve ips).2,
      h.Status = "Online" ∧ h.Hostname = resolve h.IP ∧ alive h.IP = true ∧ h.IP ∈ ips) ∧
    (∀ ip, List.countP (fun h => h.IP == ip) (scanNetwork alive resolve ips).2 =
      if ip ∈ ips ∧ alive ip = true then 1 else 0) :=
  ⟨scanNetwork_attempted alive resolve ips,
   scanNetwork_record_shape alive resolve ips,
   scanNetwork_one_record alive resolve ips hnd⟩

/-- Witness for C4 on a two-address queue where only 10.0.0.2 is alive. -/
theorem c4_scanNetwork_complete_witness :
    (scanNetwork (fun s => s == "10.0.0.2") (fun _ => "-")
      ["10.0.0.1", "10.0.0.2"]).1 = ["10.0.0.1", "10.0.0.2"] :=
  (c4_scanNetwork_complete (fun s => s == "10.0.0.2") (fun _ => "-")
    ["10.0.0.1", "10.0.0.2"] (by decide)).1

/-! ### Continuous probe loop lemmas -/

theorem updateStats_sent (s : PingStats) (r : PingResult) :
    (updateStats s r).sent = s.sent + 1 := by
  simp only [updateStats]
  split_ifs <;> rfl

theorem updateStats_received_lost (s : PingStats) (r : PingResult) :
    (updateStats s r).received + (updateStats s r).lost = s.received + s.lost + 1 := by
  simp only [updateStats]
  split_ifs <;> simp +arith

theorem updateStats_invariant (s : PingStats) (r : PingResult)
    (h : s.sent = s.received + s.lost) :
    (updateStats s r).sent = (updateStats s r).received + (updateStats s r).lost := by
  have h1 := updateStats_sent s r
  have h2 := updateStats_received_lost s r
  omega

/-- C5: starting from statistics satisfying Sent = Received + Lost, the
statistics after every completed iteration of the probe loop again satisfy
Sent = Received + Lost: each iteration increments Sent exactly once and then
exactly one of Received or Lost. -/
theorem c5_sent_eq_received_add_lost (count : Nat) (envs : List LoopEnv)
    (seq : Nat) (stats : PingStats) (h : stats.sent = stats.received + stats.lost) :
    ∀ s ∈ (runOut count envs seq stats).2, s.sent = s.received + s.lost := by
  induction envs generalizing seq stats with
  | nil =>
    intro s hs
    simp [runOut] at hs
  | cons e rest ih =>
    intro s hs
    have hinv := updateStats_invariant stats e.result h
    simp only [runOut] at hs
    by_cases hb : e.sigBefore = true
    · rw [if_pos hb] at hs
      simp at hs
    · rw [if_neg hb] at hs
      by_cases hcnt : 0 < count ∧ count ≤ seq + 1
      · rw [if_pos hcnt] at hs
        obtain rfl := List.mem_singleton.mp hs
        exact hinv
      · rw [if_neg hcnt] at hs
        by_cases hw : e.sigDuringWait = true
        · rw [if_pos hw] at hs
          obtain rfl := List.mem_singleton.mp hs
          exact hinv
        · rw [if_neg hw] at hs
          rcases List.mem_cons.mp hs with rfl | hs2
          · exact hinv
          · exact ih (seq + 1) (updateStats stats e.result) hinv s hs2

/-- Witness for C5: the snapshot after one successful iteration from zeroed
statistics satisfies Sent = Received + Lost. -/
theorem c5_sent_eq_received_add_lost_witness :
    (updateStats (PingStats.mk 0 0 0 0 0 0 0) (PingResult.mk true 7)).sent =
      (updateStats (PingStats.mk 0 0 0 0 0 0 0) (PingResult.mk true 7)).received +
        (updateStats (PingStats.mk 0 0 0 0 0 0 0) (PingResult.mk true 7)).lost :=
  c5_sent_eq_received_add_lost 0 [LoopEnv.mk false (PingResult.mk true 7) false] 0
    (PingStats.mk 0 0 0 0 0 0 0) rfl
    (updateStats (PingStats.mk 0 0 0 0 0 0 0) (PingResult.mk true 7)) (by decide)

theorem runOut_cancel_aux :
    ∀ (pre : List LoopEnv) (post : List LoopEnv) (e : LoopEnv) (seq : Nat)
      (stats : PingStats),
      (∀ x ∈ pre, x.sigBefore = false ∧ x.sigDuringWait = false) →
      e.sigBefore = false → e.sigDuringWait = true →
      (runOut 0 (pre ++ e :: post) seq stats).1.sent = stats.sent + (pre.length + 1) ∧
      (runOut 0 (pre ++ e :: post) seq stats).2.length = pre.length + 1 := by
  intro pre
  induction pre with
  | nil =>
    intro post e seq stats _ hb hw
    simp [List.nil_append, runOut, hb, hw, updateStats_sent]
  | cons x pre ih =>
    intro post e seq stats hpre hb hw
    obtain ⟨hxb, hxw⟩ := hpre x (List.mem_cons_self x pre)
    have hrest : ∀ y ∈ pre, y.sigBefore = false ∧ y.sigDuringWait = false :=
      fun y hy => hpre y (List.mem_cons_of_mem x hy)
    have hih := ih post e (seq + 1) (updateStats stats x.result) hrest hb hw
    simp only [List.cons_append, runOut, hxb, hxw, Bool.false_eq_true, if_false,
      Nat.lt_irrefl, false_and, List.length_cons, List.append_eq]
    refine ⟨?_, ?_⟩
    · rw [hih.1, updateStats_sent]
      omega
    · rw [hih.2]

/-- C3: if a cancellation signal is delivered while the probe loop is in its
inter-probe wait, the loop terminates without starting another attempt: with k
completed iterations before the one whose wait is interrupted, the final Sent
is exactly the initial Sent plus k+1 — the k+1 completed attempts, never one
more — and exactly k+1 iterations completed. -/
theorem c3_cancel_during_wait (pre post : List LoopEnv) (e : LoopEnv)
    (stats : PingStats)
    (hpre : ∀ x ∈ pre, x.sigBefore = false ∧ x.sigDuringWait = false)
    (hb : e.sigBefore = false) (hw : e.sigDuringWait = true) :
    (runOut 0 (pre ++ e :: post) 0 stats).1.sent = stats.sent + (pre.length + 1) ∧
    (runOut 0 (pre ++ e :: post) 0 stats).2.length = pre.length + 1 :=
  runOut_cancel_aux pre post e 0 stats hpre hb hw

/-- Witness for C3: one completed iteration, then a signal during the second
iteration's wait; two further scheduled probes never run and Sent is 2. -/
theorem c3_cancel_during_wait_witness :
    (runOut 0
      ([LoopEnv.mk false (PingResult.mk true 5) false] ++
        LoopEnv.mk false (PingResult.mk true 6) true ::
        [LoopEnv.mk false (PingResult.mk true 7) false,
         LoopEnv.mk false (PingResult.mk true 8) false]) 0
      (PingStats.mk 0 0 0 0 0 0 0)).1.sent = 0 + (1 + 1) :=
  (c3_cancel_during_wait _ _ _ _ (by decide) rfl rfl).1

/-- C6: at loop exit `printStats` reports the packet counts, a loss percentage
that is Lost/Sent × 100 when Sent > 0 and 0 when Sent = 0 (no division by
zero), the elapsed wall time, and the rtt min/avg/max line — with
avg = TotalTime/Received — exactly when Received > 0. -/
theorem c6_printStats_summary (now : Nat) (stats : PingStats) :
    (printStats now stats).sent = stats.sent ∧
    (printStats now stats).received = stats.received ∧
    (stats.sent = 0 → (printStats now stats).lossPercent = 0) ∧
    (0 < stats.sent →
      (printStats now stats).lossPercent = (stats.lost : ℚ) / (stats.sent : ℚ) * 100) ∧
    (printStats now stats).elapsedMs = (now - stats.startTime) / 1000000 ∧
    ((printStats now stats).rtt.isSome ↔ 0 < stats.received) ∧
    (0 < stats.received → (printStats now stats).rtt =
      some (stats.minTime, stats.totalTime / stats.received, stats.maxTime)) := by
  refine ⟨rfl, rfl, ?_, ?_, rfl, ?_, ?_⟩
  · intro h0
    simp [printStats, h0]
  · intro hpos
    simp [printStats, hpos]
  · by_cases hr : 0 < stats.received <;> simp [printStats, hr]
  · intro hr
    simp [printStats, hr]

/-- Witness for C6: an all-lost three-attempt session reports 100% loss and no
rtt line, and a session with no attempts reports 0% loss. -/
theorem c6_printStats_summary_witness :
    (printStats 9 (PingStats.mk 0 0 0 0 0 0 2)).lossPercent = 0 ∧
    (printStats 9 (PingStats.mk 3 0 3 0 0 0 2)).lossPercent = (3 : ℚ) / (3 : ℚ) * 100 :=
  ⟨(c6_printStats_summary 9 (PingStats.mk 0 0 0 0 0 0 2)).2.2.1 rfl,
   (c6_printStats_summary 9 (PingStats.mk 3 0 3 0 0 0 2)).2.2.2.1 (by decide)⟩

end Pong
